import Mathlib

/-!
Shallow embedding of the `rust-calc` calculator (src/src/{token,lexer,parser,ast,main}.rs)
and proofs about its lexing, parsing and evaluation pipeline.

Modelling conventions:
* Rust `f64` values are modelled by `Val`: exact rationals for finite values plus
  `inf`, `negInf` and `nan` for the non-finite IEEE-754 values.  All inputs
  exercised by the properties below stay inside the exactly-representable range
  where `f64` arithmetic agrees with exact rational arithmetic, so `+ - * /` on
  finite values are modelled exactly; division by a zero denominator follows the
  IEEE-754 rules (±infinity, or NaN for 0/0).  Signed zero is not modelled.
* `f64::powf` is modelled exactly on natural-number exponents (the only shape the
  verified properties use); other exponents, and the transcendental `sin`, `cos`
  and `sqrt`, are not exactly representable over ℚ and are modelled by the
  unspecified result `nan` — no property below depends on their values.
* `HashMap<String, f64>` is modelled as the function `String → Option Val`
  (its observable get/insert behaviour; keys unique).
* `&mut` state is threaded explicitly: `Lexer::next_token(&mut self)` becomes
  `Lexer → Except String Token × Lexer`, `AstNode::evaluate(&self, env: &mut …)`
  becomes `AstNode → Env → Option Val × Env`.
* Rust `char::is_whitespace` is Unicode-aware; `Char.isWhitespace` covers the
  ASCII whitespace actually used by the verified inputs.
* Rust `{:?}`-format payloads in parser error strings are abbreviated (no
  property depends on parse-error text); lexer error strings, which a property
  does inspect, are reproduced exactly (`\x27` is the ASCII quote `'`).
-/

set_option autoImplicit false

namespace RustCalc

/-- Model of Rust `f64`: exact rationals plus the non-finite IEEE-754 values. -/
inductive Val where
  | num : ℚ → Val
  | inf : Val
  | negInf : Val
  | nan : Val
deriving DecidableEq, Repr

namespace Val

/-- `true` exactly on finite values. -/
def isFinite : Val → Bool
  | num _ => true
  | _ => false

/-- `f64` addition (exact on finite values). -/
def add : Val → Val → Val
  | num a, num b => num (a + b)
  | num _, v => v
  | inf, num _ => inf
  | inf, inf => inf
  | inf, negInf => nan
  | inf, nan => nan
  | negInf, num _ => negInf
  | negInf, negInf => negInf
  | negInf, inf => nan
  | negInf, nan => nan
  | nan, _ => nan

/-- `f64` subtraction (exact on finite values). -/
def sub : Val → Val → Val
  | num a, num b => num (a - b)
  | num _, inf => negInf
  | num _, negInf => inf
  | num _, nan => nan
  | inf, num _ => inf
  | inf, negInf => inf
  | inf, inf => nan
  | inf, nan => nan
  | negInf, num _ => negInf
  | negInf, inf => negInf
  | negInf, negInf => nan
  | negInf, nan => nan
  | nan, _ => nan

/-- `f64` multiplication (exact on finite values; `0 * ±∞ = NaN` as in IEEE-754). -/
def mul : Val → Val → Val
  | num a, num b => num (a * b)
  | num a, inf => if a > 0 then inf else if a < 0 then negInf else nan
  | num a, negInf => if a > 0 then negInf else if a < 0 then inf else nan
  | num _, nan => nan
  | inf, num b => if b > 0 then inf else if b < 0 then negInf else nan
  | inf, inf => inf
  | inf, negInf => negInf
  | inf, nan => nan
  | negInf, num b => if b > 0 then negInf else if b < 0 then inf else nan
  | negInf, inf => negInf
  | negInf, negInf => inf
  | negInf, nan => nan
  | nan, _ => nan

/-- `f64` division: exact on finite values with nonzero divisor; a zero divisor
follows IEEE-754 (`x/0 = ±∞` for `x ≠ 0`, `0/0 = NaN`) — never an error. -/
def div : Val → Val → Val
  | num a, num b =>
      if b ≠ 0 then num (a / b)
      else if a > 0 then inf
      else if a < 0 then negInf
      else nan
  | num _, inf => num 0
  | num _, negInf => num 0
  | num _, nan => nan
  | inf, num b => if b < 0 then negInf else inf
  | inf, inf => nan
  | inf, negInf => nan
  | inf, nan => nan
  | negInf, num b => if b < 0 then inf else negInf
  | negInf, inf => nan
  | negInf, negInf => nan
  | negInf, nan => nan
  | nan, _ => nan

/-- `f64::powf`, modelled exactly for natural-number exponents (the only shape
the verified properties exercise); every other case is left unmodelled (`nan`). -/
def powf : Val → Val → Val
  | num a, num b => if b.den = 1 ∧ 0 ≤ b.num then num (a ^ b.num.toNat) else nan
  | _, _ => nan

/-- `f64::sin` — transcendental, not representable over ℚ; unmodelled (no
property evaluates it). -/
def sinF : Val → Val := fun _ => nan

/-- `f64::cos` — transcendental, unmodelled (no property evaluates it). -/
def cosF : Val → Val := fun _ => nan

/-- `f64::sqrt` — irrational in general, unmodelled (no property evaluates it). -/
def sqrtF : Val → Val := fun _ => nan

end Val

/-- Model of `HashMap<String, f64>`: the observable lookup function. -/
def Env : Type := String → Option Val

/-- `HashMap::new()`. -/
def Env.empty : Env := fun _ => none

/-- `HashMap::get` (by key). -/
def Env.get (env : Env) (k : String) : Option Val := env k

/-- `HashMap::insert`: inserts or overwrites the binding for `k`. -/
def Env.insert (env : Env) (k : String) (v : Val) : Env :=
  fun k2 => if k2 = k then some v else env k2

-- ===========================================
-- token.rs
-- ===========================================

/-- `Token` from token.rs. -/
inductive Token where
  | leftParenthesis
  | rightParenthesis
  | plus
  | minus
  | multiply
  | divide
  | caret
  | equals
  | number : Val → Token
  | symbol : String → Token
  | endOfFile
deriving DecidableEq, Repr

/-- `Associativity` from token.rs. -/
inductive Associativity where
  | left
  | right
deriving DecidableEq, Repr

/-- `Token::precedence_and_associativity`. -/
def Token.precedence_and_associativity : Token → Option (Nat × Associativity)
  | Token.plus | Token.minus => some (1, Associativity.left)
  | Token.multiply | Token.divide => some (2, Associativity.left)
  | Token.caret => some (3, Associativity.right)
  | _ => none

/-- `Token::is_eof`. -/
def Token.is_eof : Token → Bool
  | Token.endOfFile => true
  | _ => false

-- ===========================================
-- lexer.rs
-- ===========================================

/-- `Lexer` from lexer.rs: the input character vector and the cursor. -/
structure Lexer where
  input : List Char
  position : Nat
deriving DecidableEq, Repr

namespace Lexer

/-- `Lexer::new`. -/
def new (input : String) : Lexer :=
  { input := input.toList, position := 0 }

/-- `Lexer::current_char`. -/
def current_char (lx : Lexer) : Option Char :=
  lx.input.get? lx.position

/-- `Lexer::advance`. -/
def advance (lx : Lexer) : Lexer :=
  { lx with position := lx.position + 1 }

/-- The body of the scanning loops, recursing on an explicit iteration bound
(kept structural so that the whole pipeline computes definitionally). -/
def consumeWhileGo (p : Char → Bool) : Nat → Lexer → Lexer
  | 0, lx => lx
  | fuel + 1, lx =>
      match lx.current_char with
      | some c => if p c then consumeWhileGo p fuel lx.advance else lx
      | none => lx

/-- The `while let Some(c) = self.current_char() { if !p(c) break; advance }`
loop shared verbatim by `skip_whitespace`, `read_number` and `read_symbol`.
Each iteration advances the cursor by one and the loop stops at end of input,
so `input.length - position` iterations always suffice
(`consumeWhileGo_stop` below shows the bound is never hit mid-run). -/
def consumeWhile (p : Char → Bool) (lx : Lexer) : Lexer :=
  consumeWhileGo p (lx.input.length - lx.position) lx

/-- `Lexer::skip_whitespace`. -/
def skip_whitespace (lx : Lexer) : Lexer :=
  lx.consumeWhile (fun c => c.isWhitespace)

/-- `Lexer::consume`. -/
def consume (lx : Lexer) (token : Token) : Except String Token × Lexer :=
  (Except.ok token, lx.advance)

/-- The digits consumed by `read_number`, as an exact rational
(`"123"` folds to `123`). -/
def digitsVal (cs : List Char) : ℚ :=
  cs.foldl (fun acc c => acc * 10 + ((c.toNat - 48 : ℕ) : ℚ)) 0

/-- Rust `str::parse::<f64>()` restricted to the digit/dot substrings that
`read_number` produces: succeeds iff the substring contains at most one `.`
and at least one digit, yielding the exact decimal value (`f64` rounding
idealised as exact — all verified literals are exactly representable). -/
def parseF64 (cs : List Char) : Option ℚ :=
  if (cs.all fun c => c.isDigit || c == '.') && (cs.any fun c => c.isDigit) &&
      cs.count '.' ≤ 1 then
    let intPart := cs.takeWhile (fun c => c ≠ '.')
    let fracPart := (cs.dropWhile (fun c => c ≠ '.')).drop 1
    some (digitsVal intPart + digitsVal fracPart / (10 ^ fracPart.length))
  else
    none

/-- `Lexer::read_number`: consume the maximal run of ASCII digits and `.`,
then parse it; on failure the error carries the offending substring. -/
def read_number (lx : Lexer) : Except String Token × Lexer :=
  let start := lx.position
  let lx2 := lx.consumeWhile (fun c => c.isDigit || c == '.')
  let number_str := (lx2.input.take lx2.position).drop start
  match parseF64 number_str with
  | some q => (Except.ok (Token.number (Val.num q)), lx2)
  | none =>
      (Except.error ("Invalid number format: \x27" ++ String.mk number_str ++ "\x27"), lx2)

/-- `Lexer::read_symbol`: consume the maximal run of ASCII alphabetic characters. -/
def read_symbol (lx : Lexer) : Except String Token × Lexer :=
  let start := lx.position
  let lx2 := lx.consumeWhile (fun c => c.isAlpha)
  (Except.ok (Token.symbol (String.mk ((lx2.input.take lx2.position).drop start))), lx2)

/-- The dispatch on the current character inside `Lexer::next_token`, exactly
as the Rust `match` orders it (run on the state left by `skip_whitespace`). -/
def next_token_core (lx1 : Lexer) : Except String Token × Lexer :=
  match lx1.current_char with
  | none => (Except.ok Token.endOfFile, lx1)
  | some c =>
      if c = '(' then lx1.consume Token.leftParenthesis
      else if c = ')' then lx1.consume Token.rightParenthesis
      else if c = '+' then lx1.consume Token.plus
      else if c = '-' then lx1.consume Token.minus
      else if c = '*' then lx1.consume Token.multiply
      else if c = '/' then lx1.consume Token.divide
      else if c = '^' then lx1.consume Token.caret
      else if c = '=' then lx1.consume Token.equals
      else if c.isDigit then lx1.read_number
      else if c.isAlpha then lx1.read_symbol
      else (Except.error ("Unexpected character: \x27" ++ String.mk [c] ++ "\x27"), lx1)

/-- `Lexer::next_token`: skip whitespace (mutating the cursor), then dispatch
on the current character. -/
def next_token (lx : Lexer) : Except String Token × Lexer :=
  next_token_core lx.skip_whitespace

end Lexer

-- ===========================================
-- ast.rs
-- ===========================================

/-- The closed set of `AstNode` implementors from ast.rs (`NumberNode`, the
`binary_operation!` nodes, `PowerNode`, the `unary_function!` nodes,
`PrintNode`, `VariableNode`, `AssignmentNode`), as one inductive. -/
inductive AstNode where
  | number : Val → AstNode
  | addN : AstNode → AstNode → AstNode
  | subN : AstNode → AstNode → AstNode
  | mulN : AstNode → AstNode → AstNode
  | divN : AstNode → AstNode → AstNode
  | powN : AstNode → AstNode → AstNode
  | sinN : AstNode → AstNode
  | cosN : AstNode → AstNode
  | sqrtN : AstNode → AstNode
  | printN : AstNode → AstNode
  | varN : String → AstNode
  | assignN : String → AstNode → AstNode
deriving DecidableEq, Repr

/-- Rust's `?` operator on `Option` with a `&mut` environment threaded through:
a `None` child result returns early, keeping the environment as mutated so far. -/
def seqEval (x : Option Val × Env) (k : Val → Env → Option Val × Env) : Option Val × Env :=
  match x with
  | (none, env1) => (none, env1)
  | (some v, env1) => k v env1

/-- `AstNode::evaluate(&self, env: &mut HashMap<String, f64>) -> Option<f64>`,
with the `&mut` environment threaded explicitly (each arm is the corresponding
`impl AstNode for …` body, `?` modelled by `seqEval`).  `PrintNode`'s `println!`
writes to stdout only and is not part of the tracked state. -/
def AstNode.evaluate : AstNode → Env → Option Val × Env
  | AstNode.number v, env => (some v, env)
  | AstNode.addN l r, env =>
      seqEval (l.evaluate env) fun a env1 =>
        seqEval (r.evaluate env1) fun b env2 => (some (Val.add a b), env2)
  | AstNode.subN l r, env =>
      seqEval (l.evaluate env) fun a env1 =>
        seqEval (r.evaluate env1) fun b env2 => (some (Val.sub a b), env2)
  | AstNode.mulN l r, env =>
      seqEval (l.evaluate env) fun a env1 =>
        seqEval (r.evaluate env1) fun b env2 => (some (Val.mul a b), env2)
  | AstNode.divN l r, env =>
      seqEval (l.evaluate env) fun a env1 =>
        seqEval (r.evaluate env1) fun b env2 => (some (Val.div a b), env2)
  | AstNode.powN b e, env =>
      seqEval (b.evaluate env) fun a env1 =>
        seqEval (e.evaluate env1) fun x env2 => (some (Val.powf a x), env2)
  | AstNode.sinN a, env =>
      seqEval (a.evaluate env) fun v env1 => (some (Val.sinF v), env1)
  | AstNode.cosN a, env =>
      seqEval (a.evaluate env) fun v env1 => (some (Val.cosF v), env1)
  | AstNode.sqrtN a, env =>
      seqEval (a.evaluate env) fun v env1 => (some (Val.sqrtF v), env1)
  | AstNode.printN a, env =>
      seqEval (a.evaluate env) fun v env1 => (some v, env1)
  | AstNode.varN n, env => (env.get n, env)
  | AstNode.assignN n v, env =>
      seqEval (v.evaluate env) fun cv env1 => (some cv, env1.insert n cv)

/-- `true` iff the tree contains an `AssignmentNode` anywhere. -/
def AstNode.containsAssignment : AstNode → Bool
  | AstNode.number _ => false
  | AstNode.addN l r | AstNode.subN l r | AstNode.mulN l r | AstNode.divN l r
  | AstNode.powN l r => l.containsAssignment || r.containsAssignment
  | AstNode.sinN a | AstNode.cosN a | AstNode.sqrtN a | AstNode.printN a =>
      a.containsAssignment
  | AstNode.varN _ => false
  | AstNode.assignN _ _ => true

/-- `true` iff the tree contains an `AssignmentNode` whose target is `key`. -/
def AstNode.assignsTo (key : String) : AstNode → Bool
  | AstNode.number _ => false
  | AstNode.addN l r | AstNode.subN l r | AstNode.mulN l r | AstNode.divN l r
  | AstNode.powN l r => l.assignsTo key || r.assignsTo key
  | AstNode.sinN a | AstNode.cosN a | AstNode.sqrtN a | AstNode.printN a =>
      a.assignsTo key
  | AstNode.varN _ => false
  | AstNode.assignN n v => n == key || v.assignsTo key

/-- `true` iff the tree contains a `VariableNode` anywhere. -/
def AstNode.containsVariable : AstNode → Bool
  | AstNode.number _ => false
  | AstNode.addN l r | AstNode.subN l r | AstNode.mulN l r | AstNode.divN l r
  | AstNode.powN l r => l.containsVariable || r.containsVariable
  | AstNode.sinN a | AstNode.cosN a | AstNode.sqrtN a | AstNode.printN a =>
      a.containsVariable
  | AstNode.varN _ => true
  | AstNode.assignN _ v => v.containsVariable

-- ===========================================
-- parser.rs
-- ===========================================

/-- `Parser` from parser.rs: the lexer, the current token, and the (unused)
one-token lookahead buffer. -/
structure Parser where
  lexer : Lexer
  current_token : Token
  lookahead : Option Token
deriving DecidableEq, Repr

namespace Parser

/-- `Parser::new`. -/
def new (input : String) : Except String Parser :=
  let lexer := Lexer.new input
  match lexer.next_token with
  | (Except.error e, _) => Except.error e
  | (Except.ok t, lx) => Except.ok { lexer := lx, current_token := t, lookahead := none }

/-- `Parser::advance`: take the buffered token if present, otherwise pull the
next token from the lexer. -/
def advance (p : Parser) : Except String Parser :=
  match p.lookahead with
  | some t => Except.ok { p with current_token := t, lookahead := none }
  | none =>
      match p.lexer.next_token with
      | (Except.error e, _) => Except.error e
      | (Except.ok t, lx) => Except.ok { p with current_token := t, lexer := lx }

/-- `Parser::expect_token` (the `{:?}` payloads of the Rust message are
abbreviated; no verified property inspects parse-error text). -/
def expect_token (p : Parser) (expected : Token) : Except String Parser :=
  if p.current_token = expected then p.advance
  else Except.error "Expected token mismatch"

/-- `Parser::expect_end`. -/
def expect_end (p : Parser) : Except String Unit :=
  if p.current_token.is_eof then Except.ok ()
  else Except.error "Unexpected token at end"

/-- `Parser::create_binary_node`.  The Rust default arm panics and is
unreachable (the function is only called with operator tokens); the model
returns a junk node there. -/
def create_binary_node (operator : Token) (left right : AstNode) : AstNode :=
  match operator with
  | Token.plus => AstNode.addN left right
  | Token.minus => AstNode.subN left right
  | Token.multiply => AstNode.mulN left right
  | Token.divide => AstNode.divN left right
  | Token.caret => AstNode.powN left right
  | _ => AstNode.number Val.nan

mutual

/-- `Parser::parse_expression` (precedence climbing).  `fuel` bounds the
recursion depth; every concrete run below is given ample fuel, and fuel
exhaustion is a distinguished error that never occurs in those runs. -/
def parse_expression : Nat → Nat → Parser → Except String (AstNode × Parser)
  | 0, _, _ => Except.error "fuel exhausted"
  | fuel + 1, min_precedence, p => do
      let (left_expr, p) ← parse_atom fuel p
      parse_operators fuel min_precedence left_expr p

/-- The `while let Some((precedence, associativity)) = …` loop inside
`Parser::parse_expression`. -/
def parse_operators : Nat → Nat → AstNode → Parser → Except String (AstNode × Parser)
  | 0, _, _, _ => Except.error "fuel exhausted"
  | fuel + 1, min_precedence, left_expr, p =>
      match p.current_token.precedence_and_associativity with
      | none => Except.ok (left_expr, p)
      | some (precedence, associativity) =>
          if precedence < min_precedence then Except.ok (left_expr, p)
          else do
            let operator := p.current_token
            let p ← p.advance
            let next_min_precedence :=
              match associativity with
              | Associativity.left => precedence + 1
              | Associativity.right => precedence
            let (right_expr, p) ← parse_expression fuel next_min_precedence p
            parse_operators fuel min_precedence (create_binary_node operator left_expr right_expr) p

/-- `Parser::parse_atom`. -/
def parse_atom : Nat → Parser → Except String (AstNode × Parser)
  | 0, _ => Except.error "fuel exhausted"
  | fuel + 1, p =>
      match p.current_token with
      | Token.number value => do
          let p ← p.advance
          Except.ok (AstNode.number value, p)
      | Token.symbol name => do
          let p ← p.advance
          match p.current_token with
          | Token.leftParenthesis => parse_function_call fuel name p
          | Token.equals => parse_assignment fuel name p
          | _ => Except.ok (AstNode.varN name, p)
      | Token.leftParenthesis => do
          let p ← p.advance
          let (expr, p) ← parse_expression fuel 0 p
          let p ← p.expect_token Token.rightParenthesis
          Except.ok (expr, p)
      | _ => Except.error "Unexpected token"

/-- `Parser::parse_function_call`. -/
def parse_function_call : Nat → String → Parser → Except String (AstNode × Parser)
  | 0, _, _ => Except.error "fuel exhausted"
  | fuel + 1, function_name, p => do
      let p ← p.expect_token Token.leftParenthesis
      let (argument, p) ← parse_expression fuel 0 p
      let p ← p.expect_token Token.rightParenthesis
      match function_name with
      | "sin" => Except.ok (AstNode.sinN argument, p)
      | "cos" => Except.ok (AstNode.cosN argument, p)
      | "sqrt" => Except.ok (AstNode.sqrtN argument, p)
      | "print" => Except.ok (AstNode.printN argument, p)
      | _ => Except.error ("Unknown function: " ++ function_name)

/-- `Parser::parse_assignment`. -/
def parse_assignment : Nat → String → Parser → Except String (AstNode × Parser)
  | 0, _, _ => Except.error "fuel exhausted"
  | fuel + 1, variable_name, p => do
      let p ← p.expect_token Token.equals
      let (value_expr, p) ← parse_expression fuel 0 p
      Except.ok (AstNode.assignN variable_name value_expr, p)

end

/-- `Parser::parse`: parse one expression with minimum precedence 0, then
require the token stream to be exhausted. -/
def parse (fuel : Nat) (p : Parser) : Except String AstNode := do
  let (ast, p) ← parse_expression fuel 0 p
  let _ ← p.expect_end
  Except.ok ast

end Parser

-- ===========================================
-- main.rs
-- ===========================================

/-- Ample fuel for any parse of `input` (the Rust recursion always terminates;
the bound is generous — each unit of nesting consumes at least one character). -/
def parseFuel (input : String) : Nat := 4 * input.length + 8

/-- `evaluate_expression` from main.rs: parse, then evaluate, mapping a `None`
evaluation to the error string `"Evaluation failed"`.  The environment, being
`&mut`, keeps whatever mutations evaluation committed. -/
def evaluate_expression (input : String) (env : Env) : Except String Val × Env :=
  match Parser.new input with
  | Except.error e => (Except.error e, env)
  | Except.ok p =>
      match p.parse (parseFuel input) with
      | Except.error e => (Except.error e, env)
      | Except.ok ast =>
          match ast.evaluate env with
          | (some v, env2) => (Except.ok v, env2)
          | (none, env2) => (Except.error "Evaluation failed", env2)

/-- The parse phase of `evaluate_expression`: `Parser::new` followed by
`Parser::parse`. -/
def parse_source (input : String) : Except String AstNode :=
  match Parser.new input with
  | Except.error e => Except.error e
  | Except.ok p => p.parse (parseFuel input)

/-- The exact `f64` value of `std::f64::consts::PI` (`0x400921FB54442D18`),
as a rational. -/
def piF64 : ℚ := 7074237752028440 / 2251799813685248

/-- The exact `f64` value of `std::f64::consts::E` (`0x4005BF0A8B145769`),
as a rational. -/
def eF64 : ℚ := 6121026514868073 / 2251799813685248

/-- The freshly seeded environment built in `main`: only the constants
`pi` and `e`. -/
def fresh_env : Env :=
  (Env.empty.insert "pi" (Val.num piF64)).insert "e" (Val.num eF64)

-- ===========================================
-- Helper lemmas: environment
-- ===========================================

theorem Env.get_insert_same (env : Env) (k : String) (v : Val) :
    (env.insert k v).get k = some v := by
  simp [Env.get, Env.insert]

theorem Env.get_insert_ne (env : Env) (k k2 : String) (v : Val) (h : k2 ≠ k) :
    (env.insert k v).get k2 = env.get k2 := by
  simp [Env.get, Env.insert, h]

-- ===========================================
-- Helper lemmas: the scanning loop
-- ===========================================

theorem Lexer.consumeWhileGo_input (p : Char → Bool) :
    ∀ (n : Nat) (lx : Lexer), (consumeWhileGo p n lx).input = lx.input := by
  intro n
  induction n with
  | zero => intro lx; rfl
  | succ n ih =>
      intro lx
      simp only [consumeWhileGo]
      cases h : lx.current_char with
      | none => rfl
      | some c =>
          by_cases hp : p c
          · simpa [hp, Lexer.advance] using ih lx.advance
          · simp [hp]

theorem Lexer.consumeWhileGo_pos_le (p : Char → Bool) :
    ∀ (n : Nat) (lx : Lexer), lx.position ≤ (consumeWhileGo p n lx).position := by
  intro n
  induction n with
  | zero => intro lx; exact Nat.le_refl _
  | succ n ih =>
      intro lx
      simp only [consumeWhileGo]
      cases h : lx.current_char with
      | none => exact Nat.le_refl _
      | some c =>
          by_cases hp : p c
          · simp only [hp, if_true]
            exact Nat.le_trans (Nat.le_succ _) (ih lx.advance)
          · simp [hp]

theorem Lexer.consumeWhileGo_sat (p : Char → Bool) :
    ∀ (n : Nat) (lx : Lexer) (i : Nat), lx.position ≤ i →
      i < (consumeWhileGo p n lx).position →
      ∃ c, lx.input.get? i = some c ∧ p c = true := by
  intro n
  induction n with
  | zero =>
      intro lx i hle hlt
      exact absurd hlt (by simp only [consumeWhileGo]; omega)
  | succ n ih =>
      intro lx i hle hlt
      cases h : lx.current_char with
      | none =>
          simp only [consumeWhileGo, h] at hlt
          omega
      | some c =>
          by_cases hp : p c
          · simp only [consumeWhileGo, h, hp, if_true] at hlt
            rcases Nat.eq_or_lt_of_le hle with heq | hgt
            · exact ⟨c, heq ▸ h, hp⟩
            · exact ih lx.advance i hgt hlt
          · simp [consumeWhileGo, h, hp] at hlt
            omega

theorem Lexer.consumeWhileGo_stop (p : Char → Bool) :
    ∀ (n : Nat) (lx : Lexer), lx.input.length - lx.position ≤ n →
      ∀ c, (consumeWhileGo p n lx).current_char = some c → p c = false := by
  intro n
  induction n with
  | zero =>
      intro lx hn c hc
      have : lx.current_char = none := by
        simp only [current_char]
        exact List.get?_eq_none.mpr (by omega)
      simp only [consumeWhileGo] at hc
      rw [this] at hc
      cases hc
  | succ n ih =>
      intro lx hn c hc
      cases h : lx.current_char with
      | none =>
          simp only [consumeWhileGo, h] at hc
          exact Option.noConfusion hc
      | some c0 =>
          by_cases hp : p c0
          · simp only [consumeWhileGo, h, hp, if_true] at hc
            have hlt : lx.position < lx.input.length := by
              have h2 := List.get?_eq_some.mp h
              exact h2.1
            exact ih lx.advance (by simp only [Lexer.advance]; omega) c hc
          · simp [consumeWhileGo, h, hp] at hc
            rw [← hc]
            exact Bool.of_not_eq_true hp

theorem Lexer.consumeWhile_input (p : Char → Bool) (lx : Lexer) :
    (lx.consumeWhile p).input = lx.input :=
  consumeWhileGo_input p _ lx

theorem Lexer.consumeWhile_pos_le (p : Char → Bool) (lx : Lexer) :
    lx.position ≤ (lx.consumeWhile p).position :=
  consumeWhileGo_pos_le p _ lx

theorem Lexer.consumeWhile_sat (p : Char → Bool) (lx : Lexer) :
    ∀ i, lx.position ≤ i → i < (lx.consumeWhile p).position →
      ∃ c, lx.input.get? i = some c ∧ p c = true :=
  consumeWhileGo_sat p _ lx

theorem Lexer.consumeWhile_stop (p : Char → Bool) (lx : Lexer) :
    ∀ c, (lx.consumeWhile p).current_char = some c → p c = false :=
  consumeWhileGo_stop p _ lx (Nat.le_refl _)

theorem Lexer.consumeWhile_of_none (p : Char → Bool) (lx : Lexer)
    (h : lx.current_char = none) : lx.consumeWhile p = lx := by
  unfold consumeWhile
  cases hn : lx.input.length - lx.position with
  | zero => rfl
  | succ n => simp [consumeWhileGo, h]

-- ===========================================
-- Helper lemmas: next_token
-- ===========================================

theorem Lexer.read_number_snd (lx : Lexer) :
    (lx.read_number).2 = lx.consumeWhile (fun c => c.isDigit || c == '.') := by
  unfold read_number
  dsimp only
  split <;> rfl

theorem Lexer.read_symbol_snd (lx : Lexer) :
    (lx.read_symbol).2 = lx.consumeWhile (fun c => c.isAlpha) := rfl

theorem Lexer.read_number_ne_eof (lx : Lexer) :
    (lx.read_number).1 ≠ Except.ok Token.endOfFile := by
  unfold read_number
  dsimp only
  split <;> simp

theorem Lexer.read_symbol_ne_eof (lx : Lexer) :
    (lx.read_symbol).1 ≠ Except.ok Token.endOfFile := by
  simp [read_symbol]

set_option maxHeartbeats 1000000 in
theorem Lexer.next_token_core_pos_le (lx1 : Lexer) :
    lx1.position ≤ (next_token_core lx1).2.position := by
  cases h : lx1.current_char with
  | none =>
      simp only [next_token_core, h]
      exact Nat.le_refl _
  | some c =>
      simp only [next_token_core, h]
      split_ifs with h1 h2 h3 h4 h5 h6 h7 h8 h9 h10
      · exact Nat.le_succ _
      · exact Nat.le_succ _
      · exact Nat.le_succ _
      · exact Nat.le_succ _
      · exact Nat.le_succ _
      · exact Nat.le_succ _
      · exact Nat.le_succ _
      · exact Nat.le_succ _
      · rw [read_number_snd]
        exact consumeWhile_pos_le _ _
      · rw [read_symbol_snd]
        exact consumeWhile_pos_le _ _
      · exact Nat.le_refl _

theorem Lexer.next_token_pos_le (lx : Lexer) :
    lx.position ≤ (lx.next_token).2.position :=
  Nat.le_trans (consumeWhile_pos_le _ lx) (next_token_core_pos_le lx.skip_whitespace)

theorem Lexer.next_token_at_end (lx : Lexer) (h : lx.current_char = none) :
    lx.next_token = (Except.ok Token.endOfFile, lx) := by
  unfold next_token
  rw [skip_whitespace, consumeWhile_of_none _ lx h]
  simp [next_token_core, h]

set_option maxHeartbeats 1000000 in
theorem Lexer.next_token_eof_state (lx lx2 : Lexer)
    (h : lx.next_token = (Except.ok Token.endOfFile, lx2)) :
    lx2.current_char = none := by
  unfold next_token at h
  cases hc : (lx.skip_whitespace).current_char with
  | none =>
      simp only [next_token_core, hc] at h
      injection h with h1 h2
      rw [← h2]
      exact hc
  | some c =>
      exfalso
      simp only [next_token_core, hc] at h
      split_ifs at h with h1 h2 h3 h4 h5 h6 h7 h8 h9 h10
      · exact Token.noConfusion (Except.ok.inj (congrArg Prod.fst h))
      · exact Token.noConfusion (Except.ok.inj (congrArg Prod.fst h))
      · exact Token.noConfusion (Except.ok.inj (congrArg Prod.fst h))
      · exact Token.noConfusion (Except.ok.inj (congrArg Prod.fst h))
      · exact Token.noConfusion (Except.ok.inj (congrArg Prod.fst h))
      · exact Token.noConfusion (Except.ok.inj (congrArg Prod.fst h))
      · exact Token.noConfusion (Except.ok.inj (congrArg Prod.fst h))
      · exact Token.noConfusion (Except.ok.inj (congrArg Prod.fst h))
      · exact read_number_ne_eof _ (congrArg Prod.fst h)
      · exact read_symbol_ne_eof _ (congrArg Prod.fst h)
      · exact Except.noConfusion (congrArg Prod.fst h)

-- ===========================================
-- Helper lemmas: evaluation
-- ===========================================

theorem seqEval_fst_isSome (x : Option Val × Env) (k : Val → Env → Option Val × Env)
    (hx : x.1.isSome = true) (hk : ∀ v e, ((k v e).1).isSome = true) :
    ((seqEval x k).1).isSome = true := by
  cases x with
  | mk o e =>
      cases o with
      | none => exact absurd hx (by simp)
      | some v => exact hk v e

theorem seqEval_snd_pred (P : Env → Prop) (x : Option Val × Env)
    (k : Val → Env → Option Val × Env)
    (hx : P x.2) (hk : ∀ v e, P e → P (k v e).2) : P (seqEval x k).2 := by
  cases x with
  | mk o e =>
      cases o with
      | none => exact hx
      | some v => exact hk v e hx

/-- A tree with no `VariableNode` always evaluates to `Some`: the unresolved
variable lookup is the only failure source in evaluation. -/
theorem evaluate_isSome_of_no_variable :
    ∀ (t : AstNode), t.containsVariable = false → ∀ (env : Env),
      (((t.evaluate env).1)).isSome = true := by
  intro t
  induction t with
  | number v => intro h env; rfl
  | addN l r ihl ihr =>
      intro h env
      simp only [AstNode.containsVariable, Bool.or_eq_false_iff] at h
      exact seqEval_fst_isSome _ _ (ihl h.1 env) fun v e =>
        seqEval_fst_isSome _ _ (ihr h.2 e) fun v2 e2 => rfl
  | subN l r ihl ihr =>
      intro h env
      simp only [AstNode.containsVariable, Bool.or_eq_false_iff] at h
      exact seqEval_fst_isSome _ _ (ihl h.1 env) fun v e =>
        seqEval_fst_isSome _ _ (ihr h.2 e) fun v2 e2 => rfl
  | mulN l r ihl ihr =>
      intro h env
      simp only [AstNode.containsVariable, Bool.or_eq_false_iff] at h
      exact seqEval_fst_isSome _ _ (ihl h.1 env) fun v e =>
        seqEval_fst_isSome _ _ (ihr h.2 e) fun v2 e2 => rfl
  | divN l r ihl ihr =>
      intro h env
      simp only [AstNode.containsVariable, Bool.or_eq_false_iff] at h
      exact seqEval_fst_isSome _ _ (ihl h.1 env) fun v e =>
        seqEval_fst_isSome _ _ (ihr h.2 e) fun v2 e2 => rfl
  | powN l r ihl ihr =>
      intro h env
      simp only [AstNode.containsVariable, Bool.or_eq_false_iff] at h
      exact seqEval_fst_isSome _ _ (ihl h.1 env) fun v e =>
        seqEval_fst_isSome _ _ (ihr h.2 e) fun v2 e2 => rfl
  | sinN a iha =>
      intro h env
      simp only [AstNode.containsVariable] at h
      exact seqEval_fst_isSome _ _ (iha h env) fun v e => rfl
  | cosN a iha =>
      intro h env
      simp only [AstNode.containsVariable] at h
      exact seqEval_fst_isSome _ _ (iha h env) fun v e => rfl
  | sqrtN a iha =>
      intro h env
      simp only [AstNode.containsVariable] at h
      exact seqEval_fst_isSome _ _ (iha h env) fun v e => rfl
  | printN a iha =>
      intro h env
      simp only [AstNode.containsVariable] at h
      exact seqEval_fst_isSome _ _ (iha h env) fun v e => rfl
  | varN n =>
      intro h
      exact absurd h (by simp [AstNode.containsVariable])
  | assignN n v ihv =>
      intro h env
      simp only [AstNode.containsVariable] at h
      exact seqEval_fst_isSome _ _ (ihv h env) fun v2 e2 => rfl

/-- A tree with no `AssignmentNode` leaves the environment exactly unchanged,
whether evaluation succeeds or fails. -/
theorem evaluate_env_eq_of_no_assignment :
    ∀ (t : AstNode), t.containsAssignment = false → ∀ (env : Env),
      (t.evaluate env).2 = env := by
  intro t
  induction t with
  | number v => intro h env; rfl
  | addN l r ihl ihr =>
      intro h env
      simp only [AstNode.containsAssignment, Bool.or_eq_false_iff] at h
      exact seqEval_snd_pred (fun e => e = env) _ _ (ihl h.1 env) fun v e he => by
        rw [he]
        exact seqEval_snd_pred (fun e2 => e2 = env) _ _ (ihr h.2 env) fun v2 e2 he2 => he2
  | subN l r ihl ihr =>
      intro h env
      simp only [AstNode.containsAssignment, Bool.or_eq_false_iff] at h
      exact seqEval_snd_pred (fun e => e = env) _ _ (ihl h.1 env) fun v e he => by
        rw [he]
        exact seqEval_snd_pred (fun e2 => e2 = env) _ _ (ihr h.2 env) fun v2 e2 he2 => he2
  | mulN l r ihl ihr =>
      intro h env
      simp only [AstNode.containsAssignment, Bool.or_eq_false_iff] at h
      exact seqEval_snd_pred (fun e => e = env) _ _ (ihl h.1 env) fun v e he => by
        rw [he]
        exact seqEval_snd_pred (fun e2 => e2 = env) _ _ (ihr h.2 env) fun v2 e2 he2 => he2
  | divN l r ihl ihr =>
      intro h env
      simp only [AstNode.containsAssignment, Bool.or_eq_false_iff] at h
      exact seqEval_snd_pred (fun e => e = env) _ _ (ihl h.1 env) fun v e he => by
        rw [he]
        exact seqEval_snd_pred (fun e2 => e2 = env) _ _ (ihr h.2 env) fun v2 e2 he2 => he2
  | powN l r ihl ihr =>
      intro h env
      simp only [AstNode.containsAssignment, Bool.or_eq_false_iff] at h
      exact seqEval_snd_pred (fun e => e = env) _ _ (ihl h.1 env) fun v e he => by
        rw [he]
        exact seqEval_snd_pred (fun e2 => e2 = env) _ _ (ihr h.2 env) fun v2 e2 he2 => he2
  | sinN a iha =>
      intro h env
      simp only [AstNode.containsAssignment] at h
      exact seqEval_snd_pred (fun e => e = env) _ _ (iha h env) fun v e he => he
  | cosN a iha =>
      intro h env
      simp only [AstNode.containsAssignment] at h
      exact seqEval_snd_pred (fun e => e = env) _ _ (iha h env) fun v e he => he
  | sqrtN a iha =>
      intro h env
      simp only [AstNode.containsAssignment] at h
      exact seqEval_snd_pred (fun e => e = env) _ _ (iha h env) fun v e he => he
  | printN a iha =>
      intro h env
      simp only [AstNode.containsAssignment] at h
      exact seqEval_snd_pred (fun e => e = env) _ _ (iha h env) fun v e he => he
  | varN n => intro h env; rfl
  | assignN n v ihv =>
      intro h
      exact absurd h (by simp [AstNode.containsAssignment])

/-- A tree containing no assignment to `key` preserves the binding of `key`,
whatever other mutations it makes. -/
theorem evaluate_get_eq_of_not_assignsTo :
    ∀ (t : AstNode) (key : String), t.assignsTo key = false → ∀ (env : Env),
      ((t.evaluate env).2).get key = env.get key := by
  intro t
  induction t with
  | number v => intro key h env; rfl
  | addN l r ihl ihr =>
      intro key h env
      simp only [AstNode.assignsTo, Bool.or_eq_false_iff] at h
      exact seqEval_snd_pred (fun e => e.get key = env.get key) _ _ (ihl key h.1 env)
        fun v e he =>
          seqEval_snd_pred (fun e2 => e2.get key = env.get key) _ _
            ((ihr key h.2 e).trans he) fun v2 e2 he2 => he2
  | subN l r ihl ihr =>
      intro key h env
      simp only [AstNode.assignsTo, Bool.or_eq_false_iff] at h
      exact seqEval_snd_pred (fun e => e.get key = env.get key) _ _ (ihl key h.1 env)
        fun v e he =>
          seqEval_snd_pred (fun e2 => e2.get key = env.get key) _ _
            ((ihr key h.2 e).trans he) fun v2 e2 he2 => he2
  | mulN l r ihl ihr =>
      intro key h env
      simp only [AstNode.assignsTo, Bool.or_eq_false_iff] at h
      exact seqEval_snd_pred (fun e => e.get key = env.get key) _ _ (ihl key h.1 env)
        fun v e he =>
          seqEval_snd_pred (fun e2 => e2.get key = env.get key) _ _
            ((ihr key h.2 e).trans he) fun v2 e2 he2 => he2
  | divN l r ihl ihr =>
      intro key h env
      simp only [AstNode.assignsTo, Bool.or_eq_false_iff] at h
      exact seqEval_snd_pred (fun e => e.get key = env.get key) _ _ (ihl key h.1 env)
        fun v e he =>
          seqEval_snd_pred (fun e2 => e2.get key = env.get key) _ _
            ((ihr key h.2 e).trans he) fun v2 e2 he2 => he2
  | powN l r ihl ihr =>
      intro key h env
      simp only [AstNode.assignsTo, Bool.or_eq_false_iff] at h
      exact seqEval_snd_pred (fun e => e.get key = env.get key) _ _ (ihl key h.1 env)
        fun v e he =>
          seqEval_snd_pred (fun e2 => e2.get key = env.get key) _ _
            ((ihr key h.2 e).trans he) fun v2 e2 he2 => he2
  | sinN a iha =>
      intro key h env
      simp only [AstNode.assignsTo] at h
      exact seqEval_snd_pred (fun e => e.get key = env.get key) _ _ (iha key h env)
        fun v e he => he
  | cosN a iha =>
      intro key h env
      simp only [AstNode.assignsTo] at h
      exact seqEval_snd_pred (fun e => e.get key = env.get key) _ _ (iha key h env)
        fun v e he => he
  | sqrtN a iha =>
      intro key h env
      simp only [AstNode.assignsTo] at h
      exact seqEval_snd_pred (fun e => e.get key = env.get key) _ _ (iha key h env)
        fun v e he => he
  | printN a iha =>
      intro key h env
      simp only [AstNode.assignsTo] at h
      exact seqEval_snd_pred (fun e => e.get key = env.get key) _ _ (iha key h env)
        fun v e he => he
  | varN n => intro key h env; rfl
  | assignN n v ihv =>
      intro key h env
      simp only [AstNode.assignsTo, Bool.or_eq_false_iff, beq_eq_false_iff_ne] at h
      exact seqEval_snd_pred (fun e => e.get key = env.get key) _ _ (ihv key h.2 env)
        fun cv e he => by
          show (e.insert n cv).get key = env.get key
          rw [Env.get_insert_ne e n key cv (Ne.symm h.1)]
          exact he

-- ===========================================
-- Claim theorems
-- ===========================================

/-- C1: the caret is right-associative — evaluating `"2^3^2"` in any
environment returns 512, grouping as `2^(3^2)` — and the slash is
left-associative — evaluating `"8/4/2"` returns 1, grouping as `(8/4)/2`;
this matches the associativity table entries for `^` and `/`. -/
theorem caret_right_assoc_slash_left_assoc :
    (∀ env : Env,
      (evaluate_expression "2^3^2" env).1 = Except.ok (Val.num 512) ∧
      (evaluate_expression "8/4/2" env).1 = Except.ok (Val.num 1)) ∧
    Token.caret.precedence_and_associativity = some (3, Associativity.right) ∧
    Token.divide.precedence_and_associativity = some (2, Associativity.left) :=
  ⟨fun _ => ⟨by with_unfolding_all rfl, by with_unfolding_all rfl⟩, rfl, rfl⟩

/-- C2: with `+`,`-` at precedence 1, `*`,`/` at 2, `^` at 3 and parentheses
binding tighter than any operator, evaluating `"2+3*4"` in any environment
returns 14 and evaluating `"(2+3)*4"` returns 20. -/
theorem precedence_levels :
    (∀ env : Env,
      (evaluate_expression "2+3*4" env).1 = Except.ok (Val.num 14) ∧
      (evaluate_expression "(2+3)*4" env).1 = Except.ok (Val.num 20)) ∧
    Token.plus.precedence_and_associativity = some (1, Associativity.left) ∧
    Token.minus.precedence_and_associativity = some (1, Associativity.left) ∧
    Token.multiply.precedence_and_associativity = some (2, Associativity.left) ∧
    Token.divide.precedence_and_associativity = some (2, Associativity.left) ∧
    Token.caret.precedence_and_associativity = some (3, Associativity.right) :=
  ⟨fun _ => ⟨by with_unfolding_all rfl, by with_unfolding_all rfl⟩, rfl, rfl, rfl, rfl, rfl⟩

/-- C3 refutation: evaluating `"y + 1"` against the freshly seeded environment
fails, but with the fixed error string `"Evaluation failed"` produced in
`evaluate_expression` — an error that does not carry the offending name `"y"`
(the string does not even contain the character `y`). -/
theorem unbound_variable_error_lacks_name :
    (evaluate_expression "y + 1" fresh_env).1 = Except.error "Evaluation failed" ∧
    "Evaluation failed".toList.contains 'y' = false :=
  ⟨by with_unfolding_all rfl, by with_unfolding_all rfl⟩

/-- C3 (amended): evaluating `"y + 1"` against the freshly seeded environment
(which has no binding for `"y"`) fails with the generic error
`"Evaluation failed"`; an unresolved variable lookup is the only runtime
evaluation failure — a tree with no `VariableNode` always evaluates to a
value. -/
theorem unbound_variable_generic_failure :
    (evaluate_expression "y + 1" fresh_env).1 = Except.error "Evaluation failed" ∧
    fresh_env.get "y" = none ∧
    (∀ t : AstNode, t.containsVariable = false → ∀ env : Env,
      (((t.evaluate env).1)).isSome = true) :=
  ⟨by with_unfolding_all rfl, by with_unfolding_all rfl, evaluate_isSome_of_no_variable⟩

theorem unbound_variable_generic_failure_witness :
    ((((AstNode.number (Val.num 3)).evaluate Env.empty).1)).isSome = true :=
  unbound_variable_generic_failure.2.2 (AstNode.number (Val.num 3)) rfl Env.empty

/-- C4: Assignment evaluation is atomic with respect to its own binding:
if the value subtree succeeds, the binding is inserted/overwritten in the
environment left by the subtree and the value returned; if the value subtree
fails, the Assignment adds nothing — the environment is exactly the one the
subtree left behind. -/
theorem assignment_atomicity :
    ∀ (name : String) (value : AstNode) (env : Env),
      (∀ (v : Val) (env1 : Env), value.evaluate env = (some v, env1) →
        (AstNode.assignN name value).evaluate env = (some v, env1.insert name v) ∧
        (env1.insert name v).get name = some v) ∧
      (∀ env1 : Env, value.evaluate env = (none, env1) →
        (AstNode.assignN name value).evaluate env = (none, env1)) := by
  intro name value env
  constructor
  · intro v env1 hv
    constructor
    · simp only [AstNode.evaluate]
      rw [hv]
      rfl
    · exact Env.get_insert_same env1 name v
  · intro env1 hv
    simp only [AstNode.evaluate]
    rw [hv]
    rfl

theorem assignment_atomicity_witness :
    (AstNode.assignN "x" (AstNode.number (Val.num 5))).evaluate Env.empty =
      (some (Val.num 5), Env.empty.insert "x" (Val.num 5)) ∧
    (Env.empty.insert "x" (Val.num 5)).get "x" = some (Val.num 5) :=
  (assignment_atomicity "x" (AstNode.number (Val.num 5)) Env.empty).1
    (Val.num 5) Env.empty rfl

/-- C5: variable bindings persist on the same environment: after evaluating
`"x = 5"` against any environment, evaluating `"x + 1"` against the resulting
environment succeeds and returns 6. -/
theorem variable_persistence :
    ∀ env : Env,
      (evaluate_expression "x = 5" env).1 = Except.ok (Val.num 5) ∧
      (evaluate_expression "x + 1" (evaluate_expression "x = 5" env).2).1 =
        Except.ok (Val.num 6) :=
  fun _ => ⟨by with_unfolding_all rfl, by with_unfolding_all rfl⟩

/-- C6: division by zero is never an evaluation error: whenever both children
of a `DivideNode` evaluate successfully the node itself evaluates successfully
to the floating-point quotient, even for a zero divisor — and a zero divisor
yields a non-finite value (infinity or NaN), never a failure. -/
theorem division_by_zero_is_not_an_error :
    (∀ (l r : AstNode) (env env1 env2 : Env) (a b : Val),
      l.evaluate env = (some a, env1) → r.evaluate env1 = (some b, env2) →
      (AstNode.divN l r).evaluate env = (some (Val.div a b), env2)) ∧
    (∀ a : Val, (Val.div a (Val.num 0)).isFinite = false) := by
  constructor
  · intro l r env env1 env2 a b hl hr
    simp only [AstNode.evaluate]
    rw [hl]
    show seqEval (r.evaluate env1) _ = _
    rw [hr]
    rfl
  · intro a
    cases a with
    | num q =>
        simp only [Val.div]
        rw [if_neg (by simp)]
        by_cases h1 : q > 0
        · rw [if_pos h1]; rfl
        · rw [if_neg h1]
          by_cases h2 : q < 0
          · rw [if_pos h2]; rfl
          · rw [if_neg h2]; rfl
    | inf =>
        simp only [Val.div]
        rw [if_neg (lt_irrefl (0 : ℚ))]
        rfl
    | negInf =>
        simp only [Val.div]
        rw [if_neg (lt_irrefl (0 : ℚ))]
        rfl
    | nan => rfl

theorem division_by_zero_is_not_an_error_witness :
    (AstNode.divN (AstNode.number (Val.num 8))
        (AstNode.number (Val.num 0))).evaluate Env.empty =
      (some (Val.div (Val.num 8) (Val.num 0)), Env.empty) ∧
    (Val.div (Val.num 8) (Val.num 0)).isFinite = false :=
  ⟨division_by_zero_is_not_an_error.1 (AstNode.number (Val.num 8))
      (AstNode.number (Val.num 0)) Env.empty Env.empty Env.empty
      (Val.num 8) (Val.num 0) rfl rfl,
    division_by_zero_is_not_an_error.2 (Val.num 8)⟩

/-- C7: chained assignment nests to the right: `"x = y = 5"` parses as an
assignment to `x` whose value subtree is an assignment to `y`; evaluating it
binds `y` to 5 first, then `x` to the same 5, and the whole expression
returns 5. -/
theorem chained_assignment_right_nested :
    parse_source "x = y = 5" =
      Except.ok (AstNode.assignN "x"
        (AstNode.assignN "y" (AstNode.number (Val.num 5)))) ∧
    (∀ env : Env,
      (AstNode.assignN "x"
          (AstNode.assignN "y" (AstNode.number (Val.num 5)))).evaluate env =
        (some (Val.num 5), (env.insert "y" (Val.num 5)).insert "x" (Val.num 5)) ∧
      ((env.insert "y" (Val.num 5)).insert "x" (Val.num 5)).get "y" =
        some (Val.num 5) ∧
      ((env.insert "y" (Val.num 5)).insert "x" (Val.num 5)).get "x" =
        some (Val.num 5) ∧
      (evaluate_expression "x = y = 5" env).1 = Except.ok (Val.num 5)) := by
  constructor
  · with_unfolding_all rfl
  · intro env
    refine ⟨rfl, ?_, ?_, ?_⟩
    · rw [Env.get_insert_ne _ _ _ _ (by decide)]
      exact Env.get_insert_same env "y" (Val.num 5)
    · exact Env.get_insert_same _ "x" (Val.num 5)
    · with_unfolding_all rfl

/-- C8: the scanner is idempotent at end of input: the cursor never moves
backwards across a `next_token` call, and once `next_token` yields the
end-of-input token it returns the very same state, so every subsequent call
yields end-of-input again (and no error). -/
theorem scanner_eof_idempotent :
    ∀ (lx : Lexer) (t : Except String Token) (lx2 : Lexer),
      lx.next_token = (t, lx2) →
      lx.position ≤ lx2.position ∧
      (t = Except.ok Token.endOfFile →
        lx2.next_token = (Except.ok Token.endOfFile, lx2)) := by
  intro lx t lx2 h
  constructor
  · have h2 := Lexer.next_token_pos_le lx
    rw [h] at h2
    exact h2
  · intro ht
    subst ht
    exact Lexer.next_token_at_end lx2 (Lexer.next_token_eof_state lx lx2 h)

theorem scanner_eof_idempotent_witness :
    (Lexer.mk [] 0).position ≤ (Lexer.mk [] 0).position ∧
    ((Except.ok Token.endOfFile : Except String Token) = Except.ok Token.endOfFile →
      (Lexer.mk [] 0).next_token = (Except.ok Token.endOfFile, Lexer.mk [] 0)) :=
  scanner_eof_idempotent (Lexer.mk [] 0) (Except.ok Token.endOfFile)
    (Lexer.mk [] 0) (by with_unfolding_all rfl)

/-- C9: a token starting with an ASCII digit consumes the maximal run of ASCII
digits and `.` characters (every consumed character is a digit or dot, and the
character the scanner stops on, if any, is not); if the consumed substring is
not a valid float literal (e.g. two decimal points) `next_token` fails with a
number-format error carrying that substring, and otherwise it yields the
parsed number token. -/
theorem scanner_number_maximal_munch :
    ∀ (lx : Lexer) (c : Char) (lx1 lx2 : Lexer) (cs : List Char),
      lx1 = lx.skip_whitespace →
      lx1.current_char = some c →
      c.isDigit = true →
      lx2 = lx1.consumeWhile (fun ch => ch.isDigit || ch == '.') →
      cs = (lx2.input.take lx2.position).drop lx1.position →
      lx.next_token = lx1.read_number ∧
      (∀ i, lx1.position ≤ i → i < lx2.position →
        ∃ d, lx1.input.get? i = some d ∧ (d.isDigit || d == '.') = true) ∧
      (∀ d, lx2.current_char = some d → (d.isDigit || d == '.') = false) ∧
      (Lexer.parseF64 cs = none →
        lx.next_token =
          (Except.error ("Invalid number format: \x27" ++ String.mk cs ++ "\x27"),
            lx2)) ∧
      (∀ q : ℚ, Lexer.parseF64 cs = some q →
        lx.next_token = (Except.ok (Token.number (Val.num q)), lx2)) := by
  intro lx c lx1 lx2 cs h1 hc hdig h2 hcs
  have n1 : ¬ c = '(' := fun he => by rw [he] at hdig; exact absurd hdig (by decide)
  have n2 : ¬ c = ')' := fun he => by rw [he] at hdig; exact absurd hdig (by decide)
  have n3 : ¬ c = '+' := fun he => by rw [he] at hdig; exact absurd hdig (by decide)
  have n4 : ¬ c = '-' := fun he => by rw [he] at hdig; exact absurd hdig (by decide)
  have n5 : ¬ c = '*' := fun he => by rw [he] at hdig; exact absurd hdig (by decide)
  have n6 : ¬ c = '/' := fun he => by rw [he] at hdig; exact absurd hdig (by decide)
  have n7 : ¬ c = '^' := fun he => by rw [he] at hdig; exact absurd hdig (by decide)
  have n8 : ¬ c = '=' := fun he => by rw [he] at hdig; exact absurd hdig (by decide)
  have hnt : lx.next_token = lx1.read_number := by
    unfold Lexer.next_token
    rw [← h1]
    simp only [Lexer.next_token_core, hc]
    rw [if_neg n1, if_neg n2, if_neg n3, if_neg n4, if_neg n5, if_neg n6,
      if_neg n7, if_neg n8, if_pos hdig]
  have hrn : lx1.read_number =
      (match Lexer.parseF64 cs with
        | some q => (Except.ok (Token.number (Val.num q)), lx2)
        | none =>
            (Except.error ("Invalid number format: \x27" ++ String.mk cs ++ "\x27"),
              lx2)) := by
    unfold Lexer.read_number
    dsimp only
    rw [← h2, ← hcs]
  refine ⟨hnt, ?_, ?_, ?_, ?_⟩
  · intro i hle hlt
    rw [h2] at hlt
    exact Lexer.consumeWhile_sat _ lx1 i hle hlt
  · intro d hd
    rw [h2] at hd
    exact Lexer.consumeWhile_stop _ lx1 d hd
  · intro hnone
    rw [hnt, hrn, hnone]
  · intro q hq
    rw [hnt, hrn, hq]

theorem scanner_number_maximal_munch_witness :
    (Lexer.new "1.2.3").next_token =
      (Except.error ("Invalid number format: \x27" ++
          String.mk ['1', '.', '2', '.', '3'] ++ "\x27"),
        Lexer.mk ['1', '.', '2', '.', '3'] 5) :=
  (scanner_number_maximal_munch (Lexer.new "1.2.3") '1'
      (Lexer.mk ['1', '.', '2', '.', '3'] 0) (Lexer.mk ['1', '.', '2', '.', '3'] 5)
      ['1', '.', '2', '.', '3']
      (by with_unfolding_all rfl) (by with_unfolding_all rfl)
      (by with_unfolding_all rfl) (by with_unfolding_all rfl)
      (by with_unfolding_all rfl)).2.2.2.1 (by with_unfolding_all rfl)

/-- C10: only Assignment nodes mutate the environment: a `VariableNode`
evaluation returns the environment untouched; a tree containing no Assignment
leaves the environment exactly unchanged whether it succeeds or fails; and any
evaluation that does not assign to a key — in particular `"pi"` — preserves
that key's binding. -/
theorem env_mutated_only_by_assignment :
    (∀ (n : String) (env : Env), ((AstNode.varN n).evaluate env).2 = env) ∧
    (∀ (t : AstNode) (env : Env), t.containsAssignment = false →
      (t.evaluate env).2 = env) ∧
    (∀ (t : AstNode) (key : String) (env : Env), t.assignsTo key = false →
      ((t.evaluate env).2).get key = env.get key) :=
  ⟨fun _ _ => rfl,
    fun t env h => evaluate_env_eq_of_no_assignment t h env,
    fun t key env h => evaluate_get_eq_of_not_assignsTo t key h env⟩

theorem env_mutated_only_by_assignment_witness :
    (((AstNode.assignN "x" (AstNode.number (Val.num 5))).evaluate
        fresh_env).2).get "pi" = fresh_env.get "pi" :=
  env_mutated_only_by_assignment.2.2
    (AstNode.assignN "x" (AstNode.number (Val.num 5))) "pi" fresh_env
    (by with_unfolding_all rfl)

end RustCalc
